import Mathlib

/-!
Verification of the tatorte-classifier repository against its specification.

The development shallowly embeds the two source files:
  * `src/production_api/app/import_data.py`   (data importer)
  * `src/tatorte_classifier/machine_learning/train_model.py`  (training pipeline)

Python lists / 1-D numpy arrays are modelled as Lean `List`s; numpy's
vectorised pointwise operations are modelled by structurally recursive
functions that carry the running absolute index where the source computes
absolute index sets (`np.where`, `np.delete`).  External collaborators that
are not part of the two source files (the `DataPreprocessor` callable, the
`Model` class, sklearn's `train_test_split` / metrics, Python's
`bytes.decode` and `np.random.shuffle`) are taken as explicit function
parameters, so every theorem below quantifies over all of their possible
behaviours unless stated otherwise.
-/

/-! ## Importer: `src/production_api/app/import_data.py` -/

/-- A value held in the numpy text array `data_x.npy`: either a byte string
or an already-decoded text.  Mirrors the two cases the importer's
`convert_to_string` distinguishes. -/
inductive PyValue where
  | bytes : List UInt8 → PyValue
  | str : String → PyValue
deriving DecidableEq

/-- Translation of `convert_to_string` (import_data.py lines 13-17):
`try: return x.decode("utf-8") except: return x`.  The UTF-8 decoder itself
is Python runtime machinery, passed in as `dec`; `dec b = none` models a
raised `UnicodeDecodeError`, and calling `.decode` on a non-bytes value
raises `AttributeError` — both land in the bare `except`, which returns the
original value. -/
def convert_to_string (dec : List UInt8 → Option String) : PyValue → PyValue
  | PyValue.bytes b =>
    match dec b with
    | some s => PyValue.str s
    | none => PyValue.bytes b
  | PyValue.str s => PyValue.str s

/-- A document inserted into the `texts` collection (import_data.py
lines 26-29). -/
structure TextRecord where
  data : PyValue
  categories : List Int
  time_created : String
  time_modified : String
deriving DecidableEq

/-- Translation of the importer's record construction (import_data.py
lines 21-29): `X = np.vectorize(convert_to_string)(X)` followed by the list
comprehension over `zip(X, Y)`; `int(y)` is the identity here because the
label array is modelled as `List Int`.  `current_date` is the single
timestamp computed once at line 24. -/
def import_records (dec : List UInt8 → Option String) (X : List PyValue)
    (Y : List Int) (current_date : String) : List TextRecord :=
  ((X.map (convert_to_string dec)).zip Y).map
    (fun p => ⟨p.1, [p.2], current_date, current_date⟩)

/-- Python list slice `l[a:b]` for `0 ≤ a ≤ b`. -/
def py_slice {α : Type} (l : List α) (a b : Nat) : List α :=
  (l.drop a).take (b - a)

/-- Translation of the batching loop (import_data.py lines 31-33):
`for i in range(1, len(data) // 1000 + 2): texts.insert_many(data[(i - 1) * 1000 : i * 1000])`.
The list returned holds, in order, the argument of each `insert_many` call. -/
def insert_batches (data : List TextRecord) : List (List TextRecord) :=
  (List.range' 1 (data.length / 1000 + 1)).map
    (fun i => py_slice data ((i - 1) * 1000) (i * 1000))

/-- Proof-side restatement of the batching loop as head-chunking recursion;
`insert_batches_eq_chunks` below shows it equal to `insert_batches`. -/
def batch_chunks : Nat → List TextRecord → List (List TextRecord)
  | 0, _ => []
  | n + 1, l => l.take 1000 :: batch_chunks n (l.drop 1000)

/-- A sample record used to instantiate universally quantified theorems. -/
def sample_record : TextRecord :=
  ⟨PyValue.str "text", [1], "2019-01-01 00:00:00", "2019-01-01 00:00:00"⟩

/-! ## Training pipeline: `src/tatorte_classifier/machine_learning/train_model.py` -/

/-- The case-insensitive substring test `keyword in x.lower()` used by all
cleaning rules (train_model.py lines 41, 67, 70).  The keyword literals in
the source are ASCII lower-case, so per-character `Char.toLower` on the
haystack models Python's `str.lower` on every text the rules can match. -/
def kwInText (kw : String) (t : String) : Bool :=
  (List.range ((t.toList.map Char.toLower).length + 1)).any
    (fun i => kw.toList.isPrefixOf ((t.toList.map Char.toLower).drop i))

/-- `np.where(condition(l))[0]` — the ascending list of absolute indices at
which `p` holds, starting the count at `n` (the source always starts at 0). -/
def np_where {α : Type} (p : α → Bool) : Nat → List α → List Nat
  | _, [] => []
  | n, a :: as => if p a then n :: np_where p (n + 1) as else np_where p (n + 1) as

/-- Worker for `np.delete`: keeps the elements whose absolute index (counted
from `n`) does not satisfy `del`. -/
def np_delete_go {α : Type} (del : Nat → Bool) : Nat → List α → List α
  | _, [] => []
  | n, a :: as =>
    if del n then np_delete_go del (n + 1) as else a :: np_delete_go del (n + 1) as

/-- `np.delete(l, idxs)` — removes the entries whose index occurs in `idxs`
(repetitions in `idxs` are irrelevant, as for numpy). -/
def np_delete {α : Type} (l : List α) (idxs : List Nat) : List α :=
  np_delete_go (fun i => idxs.contains i) 0 l

/-- Translation of `_change_category` (train_model.py lines 17-21):
`y[np.intersect1d(np.where(condition(x))[0], np.where(y == old_category)[0])] = new_category`.
Position `i` of `y` becomes `new_category` exactly when `condition` holds of
`x[i]` and `y[i] = old_category`; positions of `y` beyond the end of `x`
are returned unchanged, as numpy leaves them. -/
def _change_category : List String → List Int → Int → Int → (String → Bool) → List Int
  | t :: ts, l :: ls, old_category, new_category, condition =>
    (if condition t && l == old_category then new_category else l)
      :: _change_category ts ls old_category new_category condition
  | _, ls, _, _, _ => ls

/-- Translation of `_drop_all_containing_keyword` (train_model.py lines
24-47): computes `idxs = np.where(str_contain(x))`, optionally intersects
with `np.where(y == category)` (membership in `np.intersect1d` is exactly
`i ∈ idxs ∧ y[i] = category`; the sorting performed by `intersect1d` does
not affect deletion), then deletes `idxs` from both arrays. -/
def _drop_all_containing_keyword (x : List String) (y : List Int) (kw : String)
    (category : Option Int) : List String × List Int :=
  let idxs := np_where (fun t => kwInText kw t) 0 x
  let idxs :=
    match category with
    | some c => idxs.filter (fun i => y.get? i == some c)
    | none => idxs
  (np_delete x idxs, np_delete y idxs)

/-- The two relabeling rules of `clean_data` (train_model.py lines 66-71),
in source order: texts containing "verkehrskontroll" labeled 5 become 4,
then texts containing "eingebroch" labeled 4 become 3. -/
def relabel_stage (x : List String) (y : List Int) : List Int :=
  _change_category x (_change_category x y 5 4 (kwInText "verkehrskontroll"))
    4 3 (kwInText "eingebroch")

/-- The relabeling followed by the three drop rules of `clean_data`
(train_model.py lines 66-78): drop "alkohol" from every category, then
"dienstagmorg" from category 3, then "fahrrad" from category 3. -/
def drop_stage (x : List String) (y : List Int) : List String × List Int :=
  let y1 := relabel_stage x y
  let xy := _drop_all_containing_keyword x y1 "alkohol" none
  let xy := _drop_all_containing_keyword xy.1 xy.2 "dienstagmorg" (some 3)
  _drop_all_containing_keyword xy.1 xy.2 "fahrrad" (some 3)

/-- Translation of `clean_data` (train_model.py lines 50-83): the relabel
and drop rules above, then every remaining text is replaced by its image
under the external `DataPreprocessor` callable, passed in as `pre`
(train_model.py lines 80-82). -/
def clean_data (pre : String → String) (x : List String) (y : List Int) :
    List String × List Int :=
  ((drop_stage x y).1.map pre, (drop_stage x y).2)

/-- `np.unique(y)` — the sorted list of distinct values of `y`. -/
def np_unique (y : List Int) : List Int :=
  List.insertionSort (fun a b => a ≤ b) y.dedup

/-- Python slice `l[:j]` for a possibly negative `j` (`l[:-m]` drops the
last `m` elements; clamped to empty when `m ≥ len(l)`). -/
def py_slice_upto {α : Type} (l : List α) (j : Int) : List α :=
  if 0 ≤ j then l.take j.toNat else l.take (l.length - (-j).toNat)

/-- Translation of `balance_data` (train_model.py lines 86-104): for each
value of `np.unique(y)` (taken on the original `y`, as Python evaluates the
range of the `for` once), recompute `idxs = np.where(y == i)[0]` on the
current `y`, shuffle, slice `idxs[: len(idxs) - n_per_class]`, and delete
those indices from both arrays.  `np.random.shuffle` is modelled by the
parameter `shuffle`, quantified over in the theorems (a permutation in any
real run; the counting claims hold for, or fail at, every choice). -/
def balance_data (shuffle : List Nat → List Nat) (x : List String) (y : List Int)
    (n_per_class : Int) : List String × List Int :=
  (np_unique y).foldl
    (fun xy i =>
      let idxs := np_where (fun l => l == i) 0 xy.2
      let idxs := shuffle idxs
      let idxs := py_slice_upto idxs ((idxs.length : Int) - n_per_class)
      (np_delete xy.1 idxs, np_delete xy.2 idxs))
    (x, y)

/-! Proof-side pointwise forms of the cleaning stages, related to the
definitions above by the bridging lemmas that follow. -/

/-- Pointwise form of one `_change_category` pass on an aligned pair. -/
def relabelPair (old_category new_category : Int) (condition : String → Bool)
    (p : String × Int) : String × Int :=
  if condition p.1 && p.2 == old_category then (p.1, new_category) else p

/-- Pointwise form of one `_drop_all_containing_keyword` removal condition. -/
def dropCond (kw : String) (category : Option Int) (p : String × Int) : Bool :=
  kwInText kw p.1 &&
    (match category with
     | some c => p.2 == c
     | none => true)

/-- The relabel-and-drop part of `clean_data` expressed on the list of
aligned (text, label) pairs. -/
def filteredPairs (ps : List (String × Int)) : List (String × Int) :=
  ((((ps.map (relabelPair 5 4 (kwInText "verkehrskontroll"))).map
        (relabelPair 4 3 (kwInText "eingebroch"))).filter
      (fun p => !(dropCond "alkohol" none p))).filter
    (fun p => !(dropCond "dienstagmorg" (some 3) p))).filter
    (fun p => !(dropCond "fahrrad" (some 3) p))

/-- All of `clean_data` expressed on the list of aligned pairs. -/
def cleanedPairs (pre : String → String) (ps : List (String × Int)) :
    List (String × Int) :=
  (filteredPairs ps).map (fun p => (pre p.1, p.2))

/-! ## Orchestration: `create_model`, `_train_model`, `evaluate_model`,
`save_model`, `train_model` (train_model.py lines 107-149).

The `Model` class, sklearn's `train_test_split`, `accuracy_score` and
`confusion_matrix` are external to the two source files.  Modelled from the
spec: `Model` is a black box exposing a fit operation and a call operation
returning predicted labels; the split is a generic random train/test split;
the metrics are opaque functions of the true and predicted labels.  They
appear as the parameters `model_init`, `fit`, `call`, `accuracy_score`,
`confusion_matrix` and `split` below.  Fractions such as `test_size` are
modelled as `Rat` (they are only passed through to the split). -/

/-- Translation of `create_model` (train_model.py lines 107-109):
`Model(clf, clf_params, vect_params)`. -/
def create_model {M P V : Type} (model_init : String → P → V → M) (clf : String)
    (clf_params : P) (vect_params : V) : M :=
  model_init clf clf_params vect_params

/-- Translation of `_train_model` (train_model.py lines 112-114):
`model.pipeline = model.pipeline.fit(x_train, y_train); return model`. -/
def _train_model {M : Type} (fit : List String → List Int → M → M)
    (x_train : List String) (y_train : List Int) (model : M) : M :=
  fit x_train y_train model

/-- Translation of `evaluate_model` (train_model.py lines 117-125): train
accuracy, test accuracy, and the confusion matrix of test predictions. -/
def evaluate_model {M A C : Type} (call : M → List String → List Int)
    (accuracy_score : List Int → List Int → A)
    (confusion_matrix : List Int → List Int → C)
    (x_train x_test : List String) (y_train y_test : List Int) (model : M) :
    A × A × C :=
  (accuracy_score y_train (call model x_train),
   accuracy_score y_test (call model x_test),
   confusion_matrix y_test (call model x_test))

/-- Translation of `save_model` (train_model.py lines 128-132): serializes
the model to `os.path.join(MODEL_DIR, "model-{}.sav".format(model_id))`.
The filesystem is modelled as the list of (path, content) pairs written so
far; `dill.dump(… open(path, "wb"))` appends one entry. -/
def save_model {M : Type} (files : List (String × M)) (model_dir : String)
    (model : M) (model_id : String) : List (String × M) :=
  files ++ [(model_dir ++ "/model-" ++ model_id ++ ".sav", model)]

/-- Python default `test_size=0.3` of `train_model`. -/
def default_test_size : Rat := 3 / 10

/-- Python default `values_per_category=900` of `train_model`. -/
def default_values_per_category : Int := 900

/-- Translation of `train_model` (train_model.py lines 134-149): clean,
balance, split, construct, fit, evaluate, and return the fitted model with
the three evaluation outputs.  The filesystem state `files` is threaded
through to express what the body writes: no statement in the source calls
`save_model`, so the state passes through untouched. -/
def train_model {M A C P V : Type} (pre : String → String)
    (shuffle : List Nat → List Nat)
    (split : List String → List Int → Rat →
      List String × List String × List Int × List Int)
    (model_init : String → P → V → M) (fit : List String → List Int → M → M)
    (call : M → List String → List Int)
    (accuracy_score : List Int → List Int → A)
    (confusion_matrix : List Int → List Int → C)
    (files : List (String × M)) (x : List String) (y : List Int) (clf : String)
    (clf_params : P) (vect_params : V) (test_size : Rat)
    (values_per_category : Int) : (M × A × A × C) × List (String × M) :=
  let xy := clean_data pre x y
  let xy := balance_data shuffle xy.1 xy.2 values_per_category
  let s := split xy.1 xy.2 test_size
  let model := create_model model_init clf clf_params vect_params
  let model := _train_model fit s.1 s.2.2.1 model
  let e := evaluate_model call accuracy_score confusion_matrix
    s.1 s.2.1 s.2.2.1 s.2.2.2 model
  ((model, e.1, e.2.1, e.2.2), files)

/-! ## Bridging lemmas for the importer's batching loop -/

/-- The batching map equals head-chunking recursion. -/
theorem insert_batches_eq_chunks : ∀ (n : Nat) (l : List TextRecord),
    (List.range' 1 n).map (fun i => py_slice l ((i - 1) * 1000) (i * 1000)) =
      batch_chunks n l := by
  intro n
  induction n with
  | zero => intro l; rfl
  | succ n ih =>
    intro l
    have h2 : List.range' 1 (n + 1) = 1 :: List.range' 2 n := rfl
    rw [h2, List.map_cons]
    have hhd : py_slice l ((1 - 1) * 1000) (1 * 1000) = l.take 1000 := by
      simp [py_slice]
    rw [hhd]
    show _ = l.take 1000 :: batch_chunks n (l.drop 1000)
    congr 1
    rw [← ih (l.drop 1000)]
    rw [List.range'_eq_map_range 2 n, List.range'_eq_map_range 1 n,
      List.map_map, List.map_map]
    apply List.map_congr_left
    intro j _
    simp only [Function.comp_apply]
    have b1 : 2 + j - 1 = 1 + j := by omega
    have b2 : 1 + j - 1 = j := by omega
    rw [b1, b2]
    simp only [py_slice, List.drop_drop]
    have c1 : (2 + j) * 1000 - (1 + j) * 1000 = 1000 := by omega
    have c2 : (1 + j) * 1000 - j * 1000 = 1000 := by omega
    have c3 : 1000 + j * 1000 = (1 + j) * 1000 := by ring
    rw [c1, c2, c3]

/-- Concatenating the chunks restores the list. -/
theorem batch_chunks_flatten : ∀ (n : Nat) (l : List TextRecord),
    l.length ≤ n * 1000 → (batch_chunks n l).flatten = l := by
  intro n
  induction n with
  | zero =>
    intro l h
    have hl : l = [] := List.eq_nil_of_length_eq_zero (by omega)
    simp [hl, batch_chunks]
  | succ n ih =>
    intro l h
    show (l.take 1000 :: batch_chunks n (l.drop 1000)).flatten = l
    rw [List.flatten_cons, ih (l.drop 1000) (by rw [List.length_drop]; omega)]
    exact List.take_append_drop 1000 l

/-- When the length is an exact multiple of 1000, the final chunk is empty. -/
theorem batch_chunks_getLast : ∀ (n : Nat) (l : List TextRecord),
    l.length = n * 1000 → (batch_chunks (n + 1) l).getLast? = some [] := by
  intro n
  induction n with
  | zero =>
    intro l h
    have hl : l = [] := List.eq_nil_of_length_eq_zero (by omega)
    subst hl
    rfl
  | succ n ih =>
    intro l h
    show (l.take 1000 :: ((l.drop 1000).take 1000 ::
      batch_chunks n ((l.drop 1000).drop 1000))).getLast? = some []
    rw [List.getLast?_cons_cons]
    exact ih (l.drop 1000) (by rw [List.length_drop]; omega)

/-- Claim C10: the importer's batches partition the record list exactly —
their concatenation is the original list (every record inserted once, in
order), and when the count is an exact multiple of 1000 the extra final
batch is empty. -/
theorem batches_partition (data : List TextRecord) :
    (insert_batches data).flatten = data ∧
    (data.length % 1000 = 0 → (insert_batches data).getLast? = some []) := by
  constructor
  · rw [insert_batches, insert_batches_eq_chunks]
    exact batch_chunks_flatten _ _ (by omega)
  · intro h
    rw [insert_batches, insert_batches_eq_chunks]
    exact batch_chunks_getLast (data.length / 1000) data (by omega)

/-- Witness for C10 at the concrete empty record list (length 0, a multiple
of 1000, so the single batch issued is empty). -/
theorem batches_partition_eval :
    (insert_batches ([] : List TextRecord)).flatten = [] ∧
    (insert_batches ([] : List TextRecord)).getLast? = some [] :=
  ⟨(batches_partition []).1, (batches_partition []).2 rfl⟩

/-- Claim C2: for a record list of length N the importer issues exactly
floor(N/1000) + 1 insert calls, the k-th (0-based) holding the next up to
1000 records; for N = 2500 the call sizes are 1000, 1000, 500, and for
N = 2000 (an exact multiple of 1000) they are 1000, 1000, 0. -/
theorem batching_calls (data : List TextRecord) :
    (insert_batches data).length = data.length / 1000 + 1 ∧
    (∀ k (hk : k < (insert_batches data).length),
      (insert_batches data).get ⟨k, hk⟩ = (data.drop (k * 1000)).take 1000) ∧
    (data.length = 2500 →
      (insert_batches data).map List.length = [1000, 1000, 500]) ∧
    (data.length = 2000 →
      (insert_batches data).map List.length = [1000, 1000, 0]) := by
  refine ⟨?_, ?_, ?_, ?_⟩
  · simp [insert_batches]
  · intro k hk
    rw [List.get_eq_getElem]
    simp only [insert_batches, List.getElem_map, List.getElem_range']
    have e1 : 1 + 1 * k - 1 = k := by omega
    rw [e1]
    simp only [py_slice]
    have e2 : (1 + 1 * k) * 1000 - k * 1000 = 1000 := by omega
    rw [e2]
  · intro h
    have h3 : data.length / 1000 + 1 = 3 := by omega
    simp only [insert_batches, h3]
    have hr : List.range' 1 3 = [1, 2, 3] := rfl
    rw [hr]
    simp [py_slice, h]
  · intro h
    have h3 : data.length / 1000 + 1 = 3 := by omega
    simp only [insert_batches, h3]
    have hr : List.range' 1 3 = [1, 2, 3] := rfl
    rw [hr]
    simp [py_slice, h]

/-- Witness for C2 at a concrete list of 2500 records. -/
theorem batching_calls_eval :
    (insert_batches (List.replicate 2500 sample_record)).map List.length =
      [1000, 1000, 500] :=
  (batching_calls (List.replicate 2500 sample_record)).2.2.1
    (List.length_replicate 2500 sample_record)

/-! ## Importer: record construction and text normalization -/

/-- Claim C6: the importer builds one record per aligned (text, label)
pair; each record's `categories` is the singleton of that pair's label, and
all records of a run carry the one shared timestamp in both `time_created`
and `time_modified`. -/
theorem import_record_shape (dec : List UInt8 → Option String)
    (X : List PyValue) (Y : List Int) (d : String) (h : X.length = Y.length) :
    (import_records dec X Y d).length = X.length ∧
    (∀ i (hi : i < (import_records dec X Y d).length) (hy : i < Y.length),
      ((import_records dec X Y d).get ⟨i, hi⟩).categories = [Y.get ⟨i, hy⟩]) ∧
    (∀ r ∈ import_records dec X Y d, r.time_created = d ∧ r.time_modified = d) := by
  refine ⟨?_, ?_, ?_⟩
  · simp [import_records, h]
  · intro i hi hy
    rw [List.get_eq_getElem, List.get_eq_getElem]
    simp only [import_records, List.getElem_map, List.getElem_zip]
  · intro r hr
    simp only [import_records, List.mem_map] at hr
    obtain ⟨p, _, hp⟩ := hr
    rw [← hp]
    exact ⟨rfl, rfl⟩

/-- Witness for C6 at a concrete two-element input. -/
theorem import_record_shape_eval :
    (import_records (fun _ => none) [PyValue.str "a", PyValue.bytes [255]]
      [2, 5] "2020-01-01 00:00:00").length = 2 ∧
    ((import_records (fun _ => none) [PyValue.str "a", PyValue.bytes [255]]
      [2, 5] "2020-01-01 00:00:00").get ⟨1, by decide⟩).categories = [5] :=
  ⟨(import_record_shape (fun _ => none) _ _ _ rfl).1,
   (import_record_shape (fun _ => none) _ _ _ rfl).2.1 1 (by decide) (by decide)⟩

/-- Claim C7: `convert_to_string` returns the UTF-8 decoding of a
byte-encoded value when decoding succeeds, and returns the original value
unchanged when decoding fails or the value is not byte-encoded; being a
total function, it raises no error in any case. -/
theorem convert_best_effort (dec : List UInt8 → Option String) (v : PyValue) :
    (∀ b s, v = PyValue.bytes b → dec b = some s →
      convert_to_string dec v = PyValue.str s) ∧
    (∀ b, v = PyValue.bytes b → dec b = none → convert_to_string dec v = v) ∧
    (∀ s, v = PyValue.str s → convert_to_string dec v = v) := by
  refine ⟨?_, ?_, ?_⟩
  · intro b s hv hd
    subst hv
    simp [convert_to_string, hd]
  · intro b hv hd
    subst hv
    simp [convert_to_string, hd]
  · intro s hv
    subst hv
    rfl

/-- Witness for C7 at concrete decoders and values: a decodable byte value,
an undecodable byte value, and a plain string. -/
theorem convert_best_effort_eval :
    convert_to_string (fun _ => some "ok") (PyValue.bytes [1]) = PyValue.str "ok" ∧
    convert_to_string (fun _ => none) (PyValue.bytes [255]) = PyValue.bytes [255] ∧
    convert_to_string (fun _ => none) (PyValue.str "s") = PyValue.str "s" :=
  ⟨(convert_best_effort (fun _ => some "ok") (PyValue.bytes [1])).1 [1] "ok" rfl rfl,
   (convert_best_effort (fun _ => none) (PyValue.bytes [255])).2.1 [255] rfl rfl,
   (convert_best_effort (fun _ => none) (PyValue.str "s")).2.2 "s" rfl⟩

/-! ## Bridging lemmas: absolute-index deletion as pointwise filtering -/

/-- All indices produced by `np_where` starting at `n` are at least `n`. -/
theorem np_where_ge {α : Type} (p : α → Bool) :
    ∀ (l : List α) (n i : Nat), i ∈ np_where p n l → n ≤ i := by
  intro l
  induction l with
  | nil => intro n i h; simp [np_where] at h
  | cons a as ih =>
    intro n i h
    cases hpa : p a <;> simp only [np_where, hpa] at h
    · have := ih (n + 1) i (by simpa using h)
      omega
    · simp only [if_true, List.mem_cons] at h
      rcases h with h | h
      · omega
      · have := ih (n + 1) i h
        omega

/-- Membership in `np_where p n l` at offset `j` is exactly `p` at entry `j`. -/
theorem np_where_mem {α : Type} (p : α → Bool) :
    ∀ (l : List α) (n j : Nat) (h : j < l.length),
      ((n + j) ∈ np_where p n l ↔ p (l.get ⟨j, h⟩) = true) := by
  intro l
  induction l with
  | nil => intro n j h; simp at h
  | cons a as ih =>
    intro n j h
    cases j with
    | zero =>
      have hget : (a :: as).get ⟨0, h⟩ = a := rfl
      rw [hget, Nat.add_zero]
      cases hpa : p a
      · simp only [np_where, hpa, Bool.false_eq_true, if_false]
        constructor
        · intro hmem
          have hge := np_where_ge p as (n + 1) n hmem
          omega
        · intro hp
          exact hp.elim
      · simp [np_where, hpa]
    | succ j =>
      have hj : j < as.length := by simpa using h
      have e : n + (j + 1) = (n + 1) + j := by omega
      have hget : (a :: as).get ⟨j + 1, h⟩ = as.get ⟨j, hj⟩ := by
        simp [List.get_cons_succ]
      rw [hget]
      cases hpa : p a
      · simp only [np_where, hpa, Bool.false_eq_true, if_false]
        rw [e]
        exact ih (n + 1) j hj
      · simp only [np_where, hpa, if_true, List.mem_cons]
        rw [e, ih (n + 1) j hj]
        constructor
        · rintro (hc | hc)
          · omega
          · exact hc
        · exact fun hp => Or.inr hp

/-- `contains` on `np_where` from 0 computes the pointwise condition. -/
theorem np_where_contains {α : Type} (p : α → Bool) (l : List α) (j : Nat)
    (h : j < l.length) : (np_where p 0 l).contains j = p (l.get ⟨j, h⟩) := by
  have h1 : (np_where p 0 l).contains j = decide (j ∈ np_where p 0 l) :=
    List.elem_eq_mem _ _
  rw [h1]
  have hmem := np_where_mem p l 0 j h
  rw [Nat.zero_add] at hmem
  cases hp : p (l.get ⟨j, h⟩) <;> simp [hmem, hp] <;> exact hp

/-- `contains` distributes over `filter` for index lists. -/
theorem contains_filter_nat (l : List Nat) (i : Nat) (f : Nat → Bool) :
    (l.filter f).contains i = (l.contains i && f i) := by
  have h1 : (l.filter f).contains i = decide (i ∈ l.filter f) :=
    List.elem_eq_mem i (l.filter f)
  have h2 : l.contains i = decide (i ∈ l) := List.elem_eq_mem i l
  rw [h1, h2]
  by_cases h : i ∈ l <;> by_cases hf : f i = true <;>
    simp [h, hf, List.mem_filter]

/-- Deleting, from two aligned lists, the index set of a pointwise condition
equals filtering the zipped pairs by the negated condition. -/
theorem np_delete_go_pair {α β : Type} (q : α → β → Bool) :
    ∀ (x : List α) (y : List β) (n : Nat) (del : Nat → Bool),
      x.length = y.length →
      (∀ j (h1 : j < x.length) (h2 : j < y.length),
        del (n + j) = q (x.get ⟨j, h1⟩) (y.get ⟨j, h2⟩)) →
      np_delete_go del n x =
        ((x.zip y).filter (fun p => !(q p.1 p.2))).map Prod.fst ∧
      np_delete_go del n y =
        ((x.zip y).filter (fun p => !(q p.1 p.2))).map Prod.snd := by
  intro x
  induction x with
  | nil =>
    intro y n del hlen _
    have hy : y = [] := List.eq_nil_of_length_eq_zero (by simpa using hlen.symm)
    subst hy
    exact ⟨rfl, rfl⟩
  | cons a as ih =>
    intro y n del hlen hdel
    cases y with
    | nil => simp at hlen
    | cons b bs =>
      have hlen' : as.length = bs.length := by simpa using hlen
      have hd0 : del n = q a b := by
        have := hdel 0 (by simp) (by simp)
        simpa using this
      have hdel' : ∀ j (h1 : j < as.length) (h2 : j < bs.length),
          del (n + 1 + j) = q (as.get ⟨j, h1⟩) (bs.get ⟨j, h2⟩) := by
        intro j h1 h2
        have hcall := hdel (j + 1) (by simp; omega) (by simp; omega)
        have e : n + (j + 1) = n + 1 + j := by omega
        rw [e] at hcall
        simpa using hcall
      obtain ⟨ih1, ih2⟩ := ih bs (n + 1) del hlen' hdel'
      have hx : np_delete_go del n (a :: as) =
          if del n then np_delete_go del (n + 1) as
          else a :: np_delete_go del (n + 1) as := rfl
      have hy : np_delete_go del n (b :: bs) =
          if del n then np_delete_go del (n + 1) bs
          else b :: np_delete_go del (n + 1) bs := rfl
      cases hq : q a b
      · rw [hx, hy, hd0, hq, List.zip_cons_cons, List.filter_cons]
        refine ⟨?_, ?_⟩ <;> simp [hq, ih1, ih2]
      · rw [hx, hy, hd0, hq, List.zip_cons_cons, List.filter_cons]
        refine ⟨?_, ?_⟩ <;> simp [hq, ih1, ih2]

/-- `_change_category` preserves the length of the label array. -/
theorem _change_category_length : ∀ (x : List String) (y : List Int)
    (o nw : Int) (c : String → Bool),
    (_change_category x y o nw c).length = y.length := by
  intro x
  induction x with
  | nil => intro y o nw c; cases y <;> rfl
  | cons t ts ih =>
    intro y o nw c
    cases y with
    | nil => rfl
    | cons l ls => simp [_change_category, ih]

/-- One `_change_category` pass, zipped with the unchanged texts, is the
pointwise `relabelPair` map. -/
theorem zip_change : ∀ (x : List String) (y : List Int) (o nw : Int)
    (c : String → Bool), x.length = y.length →
    x.zip (_change_category x y o nw c) = (x.zip y).map (relabelPair o nw c) := by
  intro x
  induction x with
  | nil => intro y o nw c _; rfl
  | cons t ts ih =>
    intro y o nw c h
    cases y with
    | nil => simp at h
    | cons l ls =>
      have h' : ts.length = ls.length := by simpa using h
      show (t :: ts).zip ((if c t && l == o then nw else l) ::
        _change_category ts ls o nw c) = _
      rw [List.zip_cons_cons, List.zip_cons_cons, List.map_cons]
      congr 1
      · simp only [relabelPair]
        by_cases hc : (c t && (l == o)) = true <;> simp [hc]
      · exact ih ls o nw c h'

/-- Zipping the two projections of a pair list restores the pair list. -/
theorem zip_fst_snd {γ δ : Type} (l : List (γ × δ)) :
    (l.map Prod.fst).zip (l.map Prod.snd) = l := by
  rw [List.zip_map']
  simp

/-- `_drop_all_containing_keyword` on aligned arrays is the pointwise
filter by the negated `dropCond`. -/
theorem drop_pairs (x : List String) (y : List Int) (kw : String)
    (category : Option Int) (h : x.length = y.length) :
    _drop_all_containing_keyword x y kw category =
      (((x.zip y).filter (fun p => !(dropCond kw category p))).map Prod.fst,
       ((x.zip y).filter (fun p => !(dropCond kw category p))).map Prod.snd) := by
  cases category with
  | none =>
    have hchar : ∀ j (h1 : j < x.length) (h2 : j < y.length),
        (fun i => (np_where (fun t => kwInText kw t) 0 x).contains i) (0 + j) =
          (fun a b => dropCond kw none (a, b)) (x.get ⟨j, h1⟩) (y.get ⟨j, h2⟩) := by
      intro j h1 h2
      rw [Nat.zero_add]
      show (np_where (fun t => kwInText kw t) 0 x).contains j = _
      rw [np_where_contains (fun t => kwInText kw t) x j h1]
      simp [dropCond]
    have key := np_delete_go_pair (fun a b => dropCond kw none (a, b)) x y 0
      (fun i => (np_where (fun t => kwInText kw t) 0 x).contains i) h hchar
    show (np_delete_go (fun i =>
        (np_where (fun t => kwInText kw t) 0 x).contains i) 0 x,
      np_delete_go (fun i =>
        (np_where (fun t => kwInText kw t) 0 x).contains i) 0 y) = _
    rw [key.1, key.2]
  | some c =>
    have hchar : ∀ j (h1 : j < x.length) (h2 : j < y.length),
        (fun i => ((np_where (fun t => kwInText kw t) 0 x).filter
            (fun i => y.get? i == some c)).contains i) (0 + j) =
          (fun a b => dropCond kw (some c) (a, b)) (x.get ⟨j, h1⟩) (y.get ⟨j, h2⟩) := by
      intro j h1 h2
      rw [Nat.zero_add]
      show ((np_where (fun t => kwInText kw t) 0 x).filter
        (fun i => y.get? i == some c)).contains j = _
      rw [contains_filter_nat, np_where_contains (fun t => kwInText kw t) x j h1,
        List.get?_eq_get h2]
      show (kwInText kw (x.get ⟨j, h1⟩) &&
        (some (y.get ⟨j, h2⟩) == some c)) = _
      simp [dropCond]
    have key := np_delete_go_pair (fun a b => dropCond kw (some c) (a, b)) x y 0
      (fun i => ((np_where (fun t => kwInText kw t) 0 x).filter
        (fun i => y.get? i == some c)).contains i) h hchar
    show (np_delete_go (fun i => ((np_where (fun t => kwInText kw t) 0 x).filter
        (fun i => y.get? i == some c)).contains i) 0 x,
      np_delete_go (fun i => ((np_where (fun t => kwInText kw t) 0 x).filter
        (fun i => y.get? i == some c)).contains i) 0 y) = _
    rw [key.1, key.2]

/-- The relabel stage, zipped with the unchanged texts, is the pointwise
composition of the two `relabelPair` maps. -/
theorem zip_relabel_stage (x : List String) (y : List Int) (h : x.length = y.length) :
    x.zip (relabel_stage x y) =
      ((x.zip y).map (relabelPair 5 4 (kwInText "verkehrskontroll"))).map
        (relabelPair 4 3 (kwInText "eingebroch")) := by
  show x.zip (_change_category x (_change_category x y 5 4 (kwInText "verkehrskontroll"))
    4 3 (kwInText "eingebroch")) = _
  rw [zip_change x (_change_category x y 5 4 (kwInText "verkehrskontroll")) 4 3
    (kwInText "eingebroch") (by rw [_change_category_length]; exact h)]
  rw [zip_change x y 5 4 (kwInText "verkehrskontroll") h]

/-- The relabel-and-drop stages on aligned arrays are `filteredPairs` on the
zipped pairs. -/
theorem drop_stage_pairs (x : List String) (y : List Int) (h : x.length = y.length) :
    drop_stage x y = ((filteredPairs (x.zip y)).map Prod.fst,
      (filteredPairs (x.zip y)).map Prod.snd) := by
  have hy1len : (relabel_stage x y).length = y.length := by
    show (_change_category x (_change_category x y 5 4 (kwInText "verkehrskontroll"))
      4 3 (kwInText "eingebroch")).length = y.length
    rw [_change_category_length, _change_category_length]
  have hd1 := drop_pairs x (relabel_stage x y) "alkohol" none (by rw [hy1len]; exact h)
  rw [zip_relabel_stage x y h] at hd1
  have hd2 := drop_pairs
    (((((x.zip y).map (relabelPair 5 4 (kwInText "verkehrskontroll"))).map
        (relabelPair 4 3 (kwInText "eingebroch"))).filter
      (fun p => !(dropCond "alkohol" none p))).map Prod.fst)
    (((((x.zip y).map (relabelPair 5 4 (kwInText "verkehrskontroll"))).map
        (relabelPair 4 3 (kwInText "eingebroch"))).filter
      (fun p => !(dropCond "alkohol" none p))).map Prod.snd)
    "dienstagmorg" (some 3) (by simp)
  rw [zip_fst_snd] at hd2
  have hd3 := drop_pairs
    ((((((x.zip y).map (relabelPair 5 4 (kwInText "verkehrskontroll"))).map
        (relabelPair 4 3 (kwInText "eingebroch"))).filter
      (fun p => !(dropCond "alkohol" none p))).filter
      (fun p => !(dropCond "dienstagmorg" (some 3) p))).map Prod.fst)
    ((((((x.zip y).map (relabelPair 5 4 (kwInText "verkehrskontroll"))).map
        (relabelPair 4 3 (kwInText "eingebroch"))).filter
      (fun p => !(dropCond "alkohol" none p))).filter
      (fun p => !(dropCond "dienstagmorg" (some 3) p))).map Prod.snd)
    "fahrrad" (some 3) (by simp)
  rw [zip_fst_snd] at hd3
  show _drop_all_containing_keyword
    (_drop_all_containing_keyword
      (_drop_all_containing_keyword x (relabel_stage x y) "alkohol" none).1
      (_drop_all_containing_keyword x (relabel_stage x y) "alkohol" none).2
      "dienstagmorg" (some 3)).1
    (_drop_all_containing_keyword
      (_drop_all_containing_keyword x (relabel_stage x y) "alkohol" none).1
      (_drop_all_containing_keyword x (relabel_stage x y) "alkohol" none).2
      "dienstagmorg" (some 3)).2
    "fahrrad" (some 3) = _
  rw [hd1]
  dsimp only
  rw [hd2]
  dsimp only
  rw [hd3]
  rfl

/-- `clean_data` on aligned arrays is `cleanedPairs` on the zipped pairs. -/
theorem clean_pairs (pre : String → String) (x : List String) (y : List Int)
    (h : x.length = y.length) :
    clean_data pre x y = ((cleanedPairs pre (x.zip y)).map Prod.fst,
      (cleanedPairs pre (x.zip y)).map Prod.snd) := by
  show ((drop_stage x y).1.map pre, (drop_stage x y).2) = _
  rw [drop_stage_pairs x y h]
  dsimp only
  unfold cleanedPairs
  rw [List.map_map, List.map_map, List.map_map]
  rfl

/-- Pointwise value of one `_change_category` pass. -/
theorem _change_category_get : ∀ (x : List String) (y : List Int) (o nw : Int)
    (c : String → Bool) (i : Nat) (hx : i < x.length) (hy : i < y.length)
    (hc : i < (_change_category x y o nw c).length),
    (_change_category x y o nw c).get ⟨i, hc⟩ =
      (if c (x.get ⟨i, hx⟩) && (y.get ⟨i, hy⟩ == o) then nw
       else y.get ⟨i, hy⟩) := by
  intro x
  induction x with
  | nil => intro y o nw c i hx hy hc; simp at hx
  | cons t ts ih =>
    intro y o nw c i hx hy hc
    cases y with
    | nil => simp at hy
    | cons l ls =>
      cases i with
      | zero => rfl
      | succ i =>
        have hx' : i < ts.length := by simpa using hx
        have hy' : i < ls.length := by simpa using hy
        have hc' : i < (_change_category ts ls o nw c).length := by
          rw [_change_category_length]; exact hy'
        show ((if c t && l == o then nw else l) ::
          _change_category ts ls o nw c).get ⟨i + 1, hc⟩ = _
        rw [List.get_cons_succ]
        simp only [List.get_cons_succ]
        exact ih ls o nw c i hx' hy' hc'

/-- Claim C3: the two relabeling rules of `clean_data` apply in order —
a record containing "verkehrskontroll" labeled 5 first becomes 4 (and then
3 when it also contains "eingebroch"); a record containing "eingebroch"
labeled 4 becomes 3; the label of a record matching neither rule's
keyword-and-label condition (in sequence) is unchanged. -/
theorem relabel_rules (x : List String) (y : List Int) (h : x.length = y.length)
    (i : Nat) (hx : i < x.length) (hy : i < y.length)
    (hr : i < (relabel_stage x y).length) :
    (kwInText "verkehrskontroll" (x.get ⟨i, hx⟩) = true → y.get ⟨i, hy⟩ = 5 →
      (relabel_stage x y).get ⟨i, hr⟩ =
        (if kwInText "eingebroch" (x.get ⟨i, hx⟩) then 3 else 4)) ∧
    (kwInText "eingebroch" (x.get ⟨i, hx⟩) = true → y.get ⟨i, hy⟩ = 4 →
      (relabel_stage x y).get ⟨i, hr⟩ = 3) ∧
    (¬(kwInText "verkehrskontroll" (x.get ⟨i, hx⟩) = true ∧ y.get ⟨i, hy⟩ = 5) →
      ¬(kwInText "eingebroch" (x.get ⟨i, hx⟩) = true ∧ y.get ⟨i, hy⟩ = 4) →
      (relabel_stage x y).get ⟨i, hr⟩ = y.get ⟨i, hy⟩) := by
  have hy1 : i < (_change_category x y 5 4 (kwInText "verkehrskontroll")).length := by
    rw [_change_category_length]; exact hy
  have e1 := _change_category_get x y 5 4 (kwInText "verkehrskontroll") i hx hy hy1
  have e2 := _change_category_get x
    (_change_category x y 5 4 (kwInText "verkehrskontroll")) 4 3
    (kwInText "eingebroch") i hx hy1 hr
  rw [e1] at e2
  refine ⟨?_, ?_, ?_⟩
  · intro hv h5
    show (_change_category x (_change_category x y 5 4 (kwInText "verkehrskontroll"))
      4 3 (kwInText "eingebroch")).get ⟨i, hr⟩ = _
    rw [e2, hv, h5]
    cases he : kwInText "eingebroch" (x.get ⟨i, hx⟩) <;> simp [he]
  · intro he h4
    show (_change_category x (_change_category x y 5 4 (kwInText "verkehrskontroll"))
      4 3 (kwInText "eingebroch")).get ⟨i, hr⟩ = _
    rw [e2, he, h4]
    simp
  · intro hnv hne
    have hv0 : (kwInText "verkehrskontroll" (x.get ⟨i, hx⟩) &&
        (y.get ⟨i, hy⟩ == 5)) = false := by
      cases hvb : kwInText "verkehrskontroll" (x.get ⟨i, hx⟩)
      · rw [Bool.false_and]
      · have h5 : ¬ y.get ⟨i, hy⟩ = 5 := fun hc => hnv ⟨hvb, hc⟩
        rw [Bool.true_and]
        exact beq_eq_false_iff_ne.mpr h5
    have he0 : (kwInText "eingebroch" (x.get ⟨i, hx⟩) &&
        (y.get ⟨i, hy⟩ == 4)) = false := by
      cases heb : kwInText "eingebroch" (x.get ⟨i, hx⟩)
      · rw [Bool.false_and]
      · have h4 : ¬ y.get ⟨i, hy⟩ = 4 := fun hc => hne ⟨heb, hc⟩
        rw [Bool.true_and]
        exact beq_eq_false_iff_ne.mpr h4
    show (_change_category x (_change_category x y 5 4 (kwInText "verkehrskontroll"))
      4 3 (kwInText "eingebroch")).get ⟨i, hr⟩ = _
    rw [e2, hv0]
    simp only [Bool.false_eq_true, if_false]
    rw [he0]
    simp

/-- Witness for C3: a concrete text containing "Verkehrskontrolle"
(case-insensitively matching "verkehrskontroll") labeled 5 ends labeled 4. -/
theorem relabel_rules_eval :
    (relabel_stage ["Polizei Verkehrskontrolle"] [5]).get ⟨0, by decide⟩ = 4 := by
  have h := (relabel_rules ["Polizei Verkehrskontrolle"] [5] rfl 0 (by decide)
    (by decide) (by decide)).1 (by decide) rfl
  rw [h]
  decide

/-- Claim C4: after the drop stage of `clean_data`, no surviving record's
text contains "alkohol" (in any letter case, regardless of category), and no
surviving record labeled 3 has a text containing "dienstagmorg" or
"fahrrad"; the output of `clean_data` is exactly these surviving records
with the preprocessor applied to each text. -/
theorem drop_rules (pre : String → String) (x : List String) (y : List Int)
    (h : x.length = y.length) :
    (∀ p ∈ ((drop_stage x y).1.zip (drop_stage x y).2),
      kwInText "alkohol" p.1 = false ∧
      (p.2 = 3 → kwInText "dienstagmorg" p.1 = false ∧
        kwInText "fahrrad" p.1 = false)) ∧
    clean_data pre x y = ((drop_stage x y).1.map pre, (drop_stage x y).2) := by
  constructor
  · intro p hp
    rw [drop_stage_pairs x y h] at hp
    dsimp only at hp
    rw [zip_fst_snd] at hp
    unfold filteredPairs at hp
    have h3 := List.mem_filter.mp hp
    have h2 := List.mem_filter.mp h3.1
    have h1 := List.mem_filter.mp h2.1
    constructor
    · have ha := h1.2
      simp only [dropCond, Bool.not_eq_eq_eq_not, Bool.not_true,
        Bool.and_true] at ha
      simpa using ha
    · intro hp3
      constructor
      · have hd := h2.2
        simp [dropCond, hp3] at hd
        exact hd
      · have hf := h3.2
        simp [dropCond, hp3] at hf
        exact hf
  · rfl

/-- Witness for C4 at a concrete dataset: the "alkohol" record is gone and
the surviving record satisfies all drop conditions negatively. -/
theorem drop_rules_eval :
    kwInText "alkohol" ("Unfall", (4 : Int)).1 = false ∧
    (("Unfall", (4 : Int)).2 = 3 →
      kwInText "dienstagmorg" ("Unfall", (4 : Int)).1 = false ∧
      kwInText "fahrrad" ("Unfall", (4 : Int)).1 = false) :=
  (drop_rules (fun s => s) ["ALKOHOLfahrt", "Unfall"] [2, 4] rfl).1
    ("Unfall", 4) (by decide)

/-- `np_delete_go` with one index predicate keeps aligned lists aligned. -/
theorem np_delete_go_length {α β : Type} : ∀ (x : List α) (y : List β)
    (del : Nat → Bool) (n : Nat), x.length = y.length →
    (np_delete_go del n x).length = (np_delete_go del n y).length := by
  intro x
  induction x with
  | nil =>
    intro y del n h
    have hy : y = [] := List.eq_nil_of_length_eq_zero (by simpa using h.symm)
    subst hy
    rfl
  | cons a as ih =>
    intro y del n h
    cases y with
    | nil => simp at h
    | cons b bs =>
      have h' : as.length = bs.length := by simpa using h
      rw [show np_delete_go del n (a :: as) = if del n then np_delete_go del (n + 1) as
        else a :: np_delete_go del (n + 1) as from rfl]
      rw [show np_delete_go del n (b :: bs) = if del n then np_delete_go del (n + 1) bs
        else b :: np_delete_go del (n + 1) bs from rfl]
      cases hd : del n
      · simp only [Bool.false_eq_true, if_false, List.length_cons]
        rw [ih bs del (n + 1) h']
      · simp only [if_true]
        exact ih bs del (n + 1) h'

/-- The balancing loop keeps the two arrays the same length. -/
theorem balance_data_length (shuffle : List Nat → List Nat) (x : List String)
    (y : List Int) (n : Int) (h : x.length = y.length) :
    (balance_data shuffle x y n).1.length = (balance_data shuffle x y n).2.length := by
  have main : ∀ (vs : List Int) (xy : List String × List Int),
      xy.1.length = xy.2.length →
      ((vs.foldl (fun xy i =>
        let idxs := np_where (fun l => l == i) 0 xy.2
        let idxs := shuffle idxs
        let idxs := py_slice_upto idxs ((idxs.length : Int) - n)
        (np_delete xy.1 idxs, np_delete xy.2 idxs)) xy).1.length =
       ((vs.foldl (fun xy i =>
        let idxs := np_where (fun l => l == i) 0 xy.2
        let idxs := shuffle idxs
        let idxs := py_slice_upto idxs ((idxs.length : Int) - n)
        (np_delete xy.1 idxs, np_delete xy.2 idxs)) xy).2.length)) := by
    intro vs
    induction vs with
    | nil => intro xy hxy; exact hxy
    | cons v vt ih =>
      intro xy hxy
      rw [List.foldl_cons]
      apply ih
      exact np_delete_go_length xy.1 xy.2 _ 0 hxy
  exact main (np_unique y) (x, y) h

/-- Claim C5: on aligned inputs, both `clean_data` and `balance_data`
return a pair of sequences of equal length to each other. -/
theorem alignment_preserved (pre : String → String)
    (shuffle : List Nat → List Nat) (x : List String) (y : List Int)
    (n_per_class : Int) (h : x.length = y.length) :
    (clean_data pre x y).1.length = (clean_data pre x y).2.length ∧
    (balance_data shuffle x y n_per_class).1.length =
      (balance_data shuffle x y n_per_class).2.length := by
  constructor
  · rw [clean_pairs pre x y h]
    simp
  · exact balance_data_length shuffle x y n_per_class h

/-- Witness for C5 at a concrete aligned dataset. -/
theorem alignment_preserved_eval :
    (clean_data (fun s => s) ["Alkohol", "Brand"] [1, 1]).1.length =
      (clean_data (fun s => s) ["Alkohol", "Brand"] [1, 1]).2.length ∧
    (balance_data (fun l => l) ["Alkohol", "Brand"] [1, 1] 1).1.length =
      (balance_data (fun l => l) ["Alkohol", "Brand"] [1, 1] 1).2.length :=
  alignment_preserved (fun s => s) (fun l => l) ["Alkohol", "Brand"] [1, 1] 1 rfl

/-- Label-origin facts for one pass of the two relabel rules: the text is
unchanged, a resulting label 5 means "verkehrskontroll" was absent, and a
resulting label 4 means "eingebroch" was absent. -/
theorem relabel_label_facts (t : String) (l : Int) :
    (relabelPair 4 3 (kwInText "eingebroch")
      (relabelPair 5 4 (kwInText "verkehrskontroll") (t, l))).1 = t ∧
    ((relabelPair 4 3 (kwInText "eingebroch")
      (relabelPair 5 4 (kwInText "verkehrskontroll") (t, l))).2 = 5 →
      kwInText "verkehrskontroll" t = false) ∧
    ((relabelPair 4 3 (kwInText "eingebroch")
      (relabelPair 5 4 (kwInText "verkehrskontroll") (t, l))).2 = 4 →
      kwInText "eingebroch" t = false) := by
  cases hvb : kwInText "verkehrskontroll" t <;>
    cases heb : kwInText "eingebroch" t <;>
      by_cases hl5 : l = 5 <;> by_cases hl4 : l = 4 <;>
        simp_all [relabelPair]

/-- Every pair surviving `filteredPairs` fails all five keyword-and-label
conditions of the cleaning rules. -/
theorem mem_filteredPairs (ps : List (String × Int)) (p : String × Int)
    (hp : p ∈ filteredPairs ps) :
    kwInText "alkohol" p.1 = false ∧
    (p.2 = 3 → kwInText "dienstagmorg" p.1 = false ∧
      kwInText "fahrrad" p.1 = false) ∧
    (p.2 = 5 → kwInText "verkehrskontroll" p.1 = false) ∧
    (p.2 = 4 → kwInText "eingebroch" p.1 = false) := by
  unfold filteredPairs at hp
  have h3 := List.mem_filter.mp hp
  have h2 := List.mem_filter.mp h3.1
  have h1 := List.mem_filter.mp h2.1
  obtain ⟨q, hq, hqe⟩ := List.mem_map.mp h1.1
  obtain ⟨p0, _, hp0⟩ := List.mem_map.mp hq
  have hpe : p = relabelPair 4 3 (kwInText "eingebroch")
      (relabelPair 5 4 (kwInText "verkehrskontroll") (p0.1, p0.2)) := by
    rw [← hqe, ← hp0]
  have facts := relabel_label_facts p0.1 p0.2
  refine ⟨?_, ?_, ?_, ?_⟩
  · have ha := h1.2
    simp only [dropCond, Bool.and_true] at ha
    simpa using ha
  · intro hp3
    have hd := h2.2
    have hf := h3.2
    simp [dropCond, hp3] at hd hf
    exact ⟨hd, hf⟩
  · intro h5
    have h5' : (relabelPair 4 3 (kwInText "eingebroch")
        (relabelPair 5 4 (kwInText "verkehrskontroll") (p0.1, p0.2))).2 = 5 := by
      rw [← hpe]; exact h5
    have hv := facts.2.1 h5'
    rw [hpe, facts.1]
    exact hv
  · intro h4
    have h4' : (relabelPair 4 3 (kwInText "eingebroch")
        (relabelPair 5 4 (kwInText "verkehrskontroll") (p0.1, p0.2))).2 = 4 := by
      rw [← hpe]; exact h4
    have he := facts.2.2 h4'
    rw [hpe, facts.1]
    exact he

/-- Cleaning an already-cleaned pair list changes nothing, provided the
preprocessor is idempotent and never introduces one of the five rule
keywords into a text that lacked it. -/
theorem cleanedPairs_idem (pre : String → String) (ps : List (String × Int))
    (hpre2 : ∀ t, pre (pre t) = pre t)
    (hkw : ∀ kw t, kw ∈ (["verkehrskontroll", "eingebroch", "alkohol",
      "dienstagmorg", "fahrrad"] : List String) →
      kwInText kw t = false → kwInText kw (pre t) = false) :
    cleanedPairs pre (cleanedPairs pre ps) = cleanedPairs pre ps := by
  have hmem : ∀ p ∈ cleanedPairs pre ps,
      kwInText "alkohol" p.1 = false ∧
      (p.2 = 3 → kwInText "dienstagmorg" p.1 = false ∧
        kwInText "fahrrad" p.1 = false) ∧
      (p.2 = 5 → kwInText "verkehrskontroll" p.1 = false) ∧
      (p.2 = 4 → kwInText "eingebroch" p.1 = false) ∧
      pre p.1 = p.1 := by
    intro p hp
    unfold cleanedPairs at hp
    obtain ⟨q, hq, hqe⟩ := List.mem_map.mp hp
    have qf := mem_filteredPairs ps q hq
    subst hqe
    refine ⟨?_, ?_, ?_, ?_, ?_⟩
    · exact hkw "alkohol" q.1 (by simp) qf.1
    · intro h3
      exact ⟨hkw "dienstagmorg" q.1 (by simp) (qf.2.1 h3).1,
        hkw "fahrrad" q.1 (by simp) (qf.2.1 h3).2⟩
    · intro h5
      exact hkw "verkehrskontroll" q.1 (by simp) (qf.2.2.1 h5)
    · intro h4
      exact hkw "eingebroch" q.1 (by simp) (qf.2.2.2 h4)
    · exact hpre2 q.1
  have m1 : (cleanedPairs pre ps).map
      (relabelPair 5 4 (kwInText "verkehrskontroll")) = cleanedPairs pre ps := by
    have step : ∀ p ∈ cleanedPairs pre ps,
        relabelPair 5 4 (kwInText "verkehrskontroll") p = id p := by
      intro p hp
      show relabelPair 5 4 (kwInText "verkehrskontroll") p = p
      unfold relabelPair
      by_cases h5 : p.2 = 5
      · rw [(hmem p hp).2.2.1 h5]
        simp
      · have : (p.2 == 5) = false := beq_eq_false_iff_ne.mpr h5
        rw [this]
        simp
    rw [List.map_congr_left step, List.map_id]
  have m2 : (cleanedPairs pre ps).map
      (relabelPair 4 3 (kwInText "eingebroch")) = cleanedPairs pre ps := by
    have step : ∀ p ∈ cleanedPairs pre ps,
        relabelPair 4 3 (kwInText "eingebroch") p = id p := by
      intro p hp
      show relabelPair 4 3 (kwInText "eingebroch") p = p
      unfold relabelPair
      by_cases h4 : p.2 = 4
      · rw [(hmem p hp).2.2.2.1 h4]
        simp
      · have : (p.2 == 4) = false := beq_eq_false_iff_ne.mpr h4
        rw [this]
        simp
    rw [List.map_congr_left step, List.map_id]
  have f1 : (cleanedPairs pre ps).filter
      (fun p => !(dropCond "alkohol" none p)) = cleanedPairs pre ps := by
    apply List.filter_eq_self.mpr
    intro p hp
    simp [dropCond, (hmem p hp).1]
  have f2 : (cleanedPairs pre ps).filter
      (fun p => !(dropCond "dienstagmorg" (some 3) p)) = cleanedPairs pre ps := by
    apply List.filter_eq_self.mpr
    intro p hp
    by_cases h3 : p.2 = 3
    · simp [dropCond, h3, ((hmem p hp).2.1 h3).1]
    · have : (p.2 == 3) = false := beq_eq_false_iff_ne.mpr h3
      simp [dropCond, this]
  have f3 : (cleanedPairs pre ps).filter
      (fun p => !(dropCond "fahrrad" (some 3) p)) = cleanedPairs pre ps := by
    apply List.filter_eq_self.mpr
    intro p hp
    by_cases h3 : p.2 = 3
    · simp [dropCond, h3, ((hmem p hp).2.1 h3).2]
    · have : (p.2 == 3) = false := beq_eq_false_iff_ne.mpr h3
      simp [dropCond, this]
  have hmap : (cleanedPairs pre ps).map (fun p => (pre p.1, p.2)) =
      cleanedPairs pre ps := by
    have step : ∀ p ∈ cleanedPairs pre ps, (pre p.1, p.2) = id p := by
      intro p hp
      show (pre p.1, p.2) = p
      rw [(hmem p hp).2.2.2.2]
    rw [List.map_congr_left step, List.map_id]
  show (filteredPairs (cleanedPairs pre ps)).map (fun p => (pre p.1, p.2)) = _
  unfold filteredPairs
  rw [m1, m2, f1, f2, f3, hmap]

/-- Claim C8: `clean_data` is idempotent on aligned inputs — re-cleaning
the cleaned output returns it unchanged — given that the external
preprocessor is idempotent and does not introduce any of the five rule
keywords into a text that lacked it (the spec asserts both: re-applying the
preprocessor changes no text, and no cleaned text re-matches a rule). -/
theorem clean_idempotent (pre : String → String) (x : List String)
    (y : List Int) (h : x.length = y.length)
    (hpre2 : ∀ t, pre (pre t) = pre t)
    (hkw : ∀ kw t, kw ∈ (["verkehrskontroll", "eingebroch", "alkohol",
      "dienstagmorg", "fahrrad"] : List String) →
      kwInText kw t = false → kwInText kw (pre t) = false) :
    clean_data pre (clean_data pre x y).1 (clean_data pre x y).2 =
      clean_data pre x y := by
  rw [clean_pairs pre x y h]
  dsimp only
  rw [clean_pairs pre ((cleanedPairs pre (x.zip y)).map Prod.fst)
    ((cleanedPairs pre (x.zip y)).map Prod.snd) (by simp)]
  rw [zip_fst_snd]
  rw [cleanedPairs_idem pre (x.zip y) hpre2 hkw]

/-- Witness for C8 with the identity preprocessor on a concrete dataset
containing a dropped record, a relabeled record, and an untouched record. -/
theorem clean_idempotent_eval :
    clean_data (fun s => s)
      (clean_data (fun s => s)
        ["Alkohol am Steuer", "verkehrskontrolle mit Drogen", "Brand"] [3, 5, 1]).1
      (clean_data (fun s => s)
        ["Alkohol am Steuer", "verkehrskontrolle mit Drogen", "Brand"] [3, 5, 1]).2 =
      clean_data (fun s => s)
        ["Alkohol am Steuer", "verkehrskontrolle mit Drogen", "Brand"] [3, 5, 1] :=
  clean_idempotent (fun s => s)
    ["Alkohol am Steuer", "verkehrskontrolle mit Drogen", "Brand"] [3, 5, 1]
    rfl (fun _ => rfl) (fun _ _ _ hf => hf)

/-- Claim C1 (evaluation at the failing input): with `n_per_class = 3`, a
category holding only 2 examples — fewer than 3 — is not left unchanged:
`idxs[: len(idxs) - n_per_class]` is the Python negative slice `idxs[:-1]`,
so one example is deleted and only 1 remains.  The count outcome does not
depend on the shuffle, instantiated here with the identity permutation. -/
theorem balance_small_class_shrinks :
    ([3, 3] : List Int).count 3 = 2 ∧
    balance_data (fun idxs => idxs) ["a", "b"] [3, 3] 3 = (["b"], [3]) ∧
    (balance_data (fun idxs => idxs) ["a", "b"] [3, 3] 3).2.count 3 = 1 := by
  refine ⟨rfl, ?_, ?_⟩ <;> rfl

/-- Claim C9: with the default `test_size` (0.3) and `values_per_category`
(900), `train_model` performs exactly clean, balance, random split, model
construction, fitting, and evaluation, returning the fitted model with the
train accuracy, test accuracy and confusion matrix; the filesystem state it
returns is its input state unchanged — it never calls `save_model`, and any
`save_model` call necessarily changes that state. -/
theorem train_model_stages {M A C P V : Type} (pre : String → String)
    (shuffle : List Nat → List Nat)
    (split : List String → List Int → Rat →
      List String × List String × List Int × List Int)
    (model_init : String → P → V → M) (fit : List String → List Int → M → M)
    (call : M → List String → List Int)
    (accuracy_score : List Int → List Int → A)
    (confusion_matrix : List Int → List Int → C)
    (files : List (String × M)) (x : List String) (y : List Int) (clf : String)
    (clf_params : P) (vect_params : V) :
    default_test_size = 3 / 10 ∧
    default_values_per_category = 900 ∧
    (train_model pre shuffle split model_init fit call accuracy_score
      confusion_matrix files x y clf clf_params vect_params
      default_test_size default_values_per_category).2 = files ∧
    (train_model pre shuffle split model_init fit call accuracy_score
      confusion_matrix files x y clf clf_params vect_params
      default_test_size default_values_per_category).1 =
      (let xy := clean_data pre x y
       let xy2 := balance_data shuffle xy.1 xy.2 default_values_per_category
       let s := split xy2.1 xy2.2 default_test_size
       let m := _train_model fit s.1 s.2.2.1
         (create_model model_init clf clf_params vect_params)
       let e := evaluate_model call accuracy_score confusion_matrix
         s.1 s.2.1 s.2.2.1 s.2.2.2 m
       (m, e.1, e.2.1, e.2.2)) ∧
    (∀ (model_dir model_id : String) (m : M),
      save_model files model_dir m model_id ≠ files) := by
  refine ⟨rfl, rfl, rfl, rfl, ?_⟩
  intro model_dir model_id m hcontra
  have hlen := congrArg List.length hcontra
  simp [save_model] at hlen
